import Mathlib

/-!
Verification of the disk-image access and filesystem-traversal core of the
Digital-forensic toolkit (managers/evidence_utils.py and the ZIP-archive
bridge in modules/mainwindow.py).

The Python code sits on top of external libraries (pytsk3, pyewf, zipfile,
Registry, datetime).  Those collaborators are modelled abstractly: each
outcome the library can produce (a parsed volume table, a raised exception,
a directory's raw entries, the bytes returned by a random-access read) is an
explicit input of the Lean definitions, and the control flow of the Python
functions is translated faithfully on top of those inputs.  `Option` models
"value or raised exception" for a library call; caught exceptions follow the
source's `try/except` structure.
-/

namespace Toolkit

/-- Constant from evidence_utils.py: bytes per sector. -/
def SECTOR_SIZE : Nat := 512

/-- Constant from evidence_utils.py: 1 MiB buffer for regular reads. -/
def READ_BUFFER_SIZE : Nat := 1024 * 1024

/-- Constant from evidence_utils.py: files above 10 MiB use chunked reading. -/
def LARGE_FILE_THRESHOLD : Nat := 10 * 1024 * 1024

/-- Constant from evidence_utils.py: 8 MiB chunks for large files. -/
def CHUNK_SIZE : Nat := 8 * 1024 * 1024

/-- Lower-case a string character by character (models Python str.lower for
the ASCII extensions the code compares against). -/
def lowerStr (s : String) : String := String.mk (s.data.map Char.toLower)

/-- Index of the last occurrence of a character in a character list, or
`none` (models Python str.rfind returning -1). -/
def lastIdxOf (c : Char) : List Char → Option Nat
  | [] => none
  | a :: as =>
    match lastIdxOf c as with
    | some i => some (i + 1)
    | none => if a == c then some 0 else none

/-- Extension part of `os.path.splitext` (posixpath): the extension starts at
the last dot, provided that dot comes after the last path separator and at
least one non-dot character stands between the separator and the dot. -/
def splitextExt (p : String) : String :=
  let cs := p.data
  match lastIdxOf '.' cs with
  | none => ""
  | some d =>
    let fstart := match lastIdxOf '/' cs with
      | none => 0
      | some i => i + 1
    if fstart ≤ d then
      if ((cs.drop fstart).take (d - fstart)).any (fun ch => ch != '.') then
        String.mk (cs.drop d)
      else ""
    else ""

/-- Extension list for segmented-evidence (EWF) images, from
ImageHandler.get_image_type. -/
def ewfExts : List String := [".e01", ".s01", ".l01", ".ex01"]

/-- Extension list for linear raw images, from ImageHandler.get_image_type. -/
def rawExts : List String :=
  [".raw", ".img", ".dd", ".iso", ".ad1", ".001", ".dmg", ".sparse", ".sparseimage"]

/-- ImageHandler.get_image_type: classify the image purely by the lower-cased
file extension of its path; unknown extensions raise ValueError (modelled by
`Except.error`).  The function receives only the path, so it cannot inspect
file content. -/
def get_image_type (image_path : String) : Except String String :=
  let extension := lowerStr (splitextExt image_path)
  if ewfExts.contains extension then Except.ok "ewf"
  else if rawExts.contains extension then Except.ok "raw"
  else Except.error ("Unsupported image type: " ++ extension)

/-- Partition entry as produced by the volume-table parse (pytsk3 partition
objects restricted to the fields the code reads). -/
structure PartEnt where
  addr : Nat
  desc : String
  start : Nat
  len : Nat
deriving DecidableEq

/-- Abstract outcome of the external library calls made while loading volume
information: `parseResult = none` models `pytsk3.Volume_Info` raising, and
`probeRoot` tells whether `pytsk3.FS_Info` at offset 0 succeeds. -/
structure VolWorld where
  parseResult : Option (List PartEnt)
  probeRoot : Bool

/-- State written by ImageHandler._ensure_volume_info_loaded: the parsed
volume info, whether a direct filesystem was found at offset 0 (fs_info),
and the wiped-image flag. -/
structure VolState where
  volumeInfo : Option (List PartEnt)
  fsInfo : Bool
  isWipedImage : Bool
deriving DecidableEq

/-- ImageHandler._ensure_volume_info_loaded: try the volume-table parse; on
exception try a direct filesystem probe at offset 0; if that also fails mark
the image wiped.  Total: every outcome yields a state, nothing propagates. -/
def ensure_volume_info_loaded (w : VolWorld) : VolState :=
  match w.parseResult with
  | some ps => { volumeInfo := some ps, fsInfo := false, isWipedImage := false }
  | none =>
    if w.probeRoot then { volumeInfo := none, fsInfo := true, isWipedImage := false }
    else { volumeInfo := none, fsInfo := false, isWipedImage := true }

/-- ImageHandler.get_partitions: entries with a falsy (empty) description are
skipped; with no volume info the result is the empty list. -/
def get_partitions (w : VolWorld) : List (Nat × String × Nat × Nat) :=
  let st := ensure_volume_info_loaded w
  match st.volumeInfo with
  | some ps => (ps.filter (fun p => p.desc != "")).map (fun p => (p.addr, p.desc, p.start, p.len))
  | none => []

/-- Catalog shape of the spec's VolumeCatalog.discover, assembled from the
handler state: volumes from get_partitions, wiped from is_wiped(), and
bare_filesystem from whether fs_info was set. -/
structure Catalog where
  volumes : List (Nat × String × Nat × Nat)
  wiped : Bool
  bare_filesystem : Bool
deriving DecidableEq

/-- Volume discovery as observed through the handler's accessors. -/
def discover (w : VolWorld) : Catalog :=
  let st := ensure_volume_info_loaded w
  { volumes := get_partitions w
    wiped := st.isWipedImage
    bare_filesystem := st.fsInfo }

/-- Left-pad a natural number to two digits (strftime zero padding). -/
def pad2 (n : Nat) : String := if n < 10 then "0" ++ toString n else toString n

/-- Left-pad a natural number to four digits (strftime year padding). -/
def pad4 (n : Nat) : String :=
  if n < 10 then "000" ++ toString n
  else if n < 100 then "00" ++ toString n
  else if n < 1000 then "0" ++ toString n
  else toString n

/-- Civil date (year, month, day) for a count of days since 1970-01-01,
using the standard era-based conversion; models the external datetime
library's calendar arithmetic for non-negative timestamps. -/
def civilFromDays (days : Nat) : Nat × Nat × Nat :=
  let z := days + 719468
  let era := z / 146097
  let doe := z % 146097
  let yoe := (doe - doe / 1460 + doe / 36524 - doe / 146096) / 365
  let y := yoe + era * 400
  let doy := doe - (365 * yoe + yoe / 4 - yoe / 100)
  let mp := (5 * doy + 2) / 153
  let d := doy - (153 * mp + 2) / 5 + 1
  let m := if mp < 10 then mp + 3 else mp - 9
  (if m ≤ 2 then y + 1 else y, m, d)

/-- Model of the external datetime library call
`datetime.datetime.utcfromtimestamp(t).strftime(%Y-%m-%d %H:%M:%S)` for a
non-negative integer timestamp `t` in seconds. -/
def formatTs (t : Nat) : String :=
  let days := t / 86400
  let secs := t % 86400
  let c := civilFromDays days
  pad4 c.1 ++ "-" ++ pad2 c.2.1 ++ "-" ++ pad2 c.2.2 ++ " " ++
    pad2 (secs / 3600) ++ ":" ++ pad2 (secs % 3600 / 60) ++ ":" ++ pad2 (secs % 60)

/-- Rendered epoch-zero date text, which forensically misleading output must
avoid according to the spec. -/
def epochZeroText : String := "1970-01-01 00:00:00"

/-- The safe_datetime helper defined inside ImageHandler.get_directory_contents:
`None` or `0` renders as the "N/A" sentinel, any other timestamp is formatted
and suffixed with " UTC". -/
def safe_datetime_listing (t : Option Nat) : String :=
  match t with
  | none => "N/A"
  | some ts => if ts = 0 then "N/A" else formatTs ts ++ " UTC"

/-- The safe_datetime helper defined inside ImageHandler.get_file_metadata:
only `None` renders as "N/A"; a zero timestamp is formatted like any other. -/
def safe_datetime_metadata (t : Option Nat) : String :=
  match t with
  | none => "N/A"
  | some ts => formatTs ts

/-- Metadata block of a raw directory entry (`entry.info.meta`), restricted
to the fields the listing reads.  An `Option` timestamp field covers both a
missing attribute (hasattr false) and a `None` value. -/
structure RawMeta where
  isDir : Bool
  addr : Nat
  size : Option Nat
  atime : Option Nat
  mtime : Option Nat
  crtime : Option Nat
  ctime : Option Nat
deriving DecidableEq

/-- Raw directory entry as yielded by iterating a pytsk3 directory.  `name`
is the decoded name (decoding uses errors=ignore and is total), `meta` is
`none` when `entry.info.meta` is None, and `fails` models an exception
raised anywhere inside the per-entry try block. -/
structure RawEntry where
  name : String
  meta : Option RawMeta
  fails : Bool
deriving DecidableEq

/-- Directory entry record built by ImageHandler.get_directory_contents. -/
structure DirEntry where
  name : String
  is_directory : Bool
  inode_number : Option Nat
  size : Nat
  accessed : String
  modified : String
  created : String
  changed : String
deriving DecidableEq

/-- Build the listing record for one healthy raw entry, field by field as in
the dict literal of get_directory_contents. -/
def mkDirEnt (e : RawEntry) : DirEntry :=
  { name := e.name
    is_directory := match e.meta with | some m => m.isDir | none => false
    inode_number := e.meta.map (fun m => m.addr)
    size := match e.meta with | some m => m.size.getD 0 | none => 0
    accessed := match e.meta with | some m => safe_datetime_listing m.atime | none => "N/A"
    modified := match e.meta with | some m => safe_datetime_listing m.mtime | none => "N/A"
    created := match e.meta with | some m => safe_datetime_listing m.crtime | none => "N/A"
    changed := match e.meta with | some m => safe_datetime_listing m.ctime | none => "N/A" }

/-- Per-entry loop of get_directory_contents: an entry whose processing
raises is skipped silently, synthetic "." and ".." entries are skipped, and
every other entry contributes its record, in order. -/
def listEntries : List RawEntry → List DirEntry
  | [] => []
  | e :: rest =>
    if e.fails then listEntries rest
    else if e.name == "." || e.name == ".." then listEntries rest
    else mkDirEnt e :: listEntries rest

/-- Abstract filesystem world for the cached directory layer: `fsOpen`
tells whether `pytsk3.FS_Info` succeeds at a sector offset, and `dirAt`
gives the raw entries of a directory (`none` models open_dir raising).
The directory key is `none` for the root path open and `some n` for an
inode-based open. -/
structure DirWorld where
  fsOpen : Nat → Bool
  dirAt : Nat → Option Nat → Option (List RawEntry)

/-- Python truthiness applied to the inode argument: `fs.open_dir(inode=n)
if inode_number else fs.open_dir(path=/)`, so inode 0 and None both open
the root. -/
def dirKey : Option Nat → Option Nat
  | none => none
  | some n => if n = 0 then none else some n

/-- Mutable caches of an ImageHandler relevant to traversal: the offsets
holding a memoized FS_Info handle, and the directory-listing cache keyed by
`(start_offset, inode_number)`. -/
structure HState where
  fsCache : List Nat
  dirCache : List ((Nat × Option Nat) × List DirEntry)

/-- ImageHandler.get_fs_info: a cache hit returns the memoized handle; a
miss attempts the mount, memoizing only on success and returning None on
failure (negative results are never cached). -/
def get_fs_info (w : DirWorld) (st : HState) (offset : Nat) : Bool × HState :=
  if st.fsCache.contains offset then (true, st)
  else if w.fsOpen offset then (true, { st with fsCache := offset :: st.fsCache })
  else (false, st)

/-- ImageHandler.get_directory_contents: cache hit short-circuits; otherwise
the filesystem is mounted, the directory opened, the entries processed with
per-entry fault isolation, and only a successfully opened directory's result
is written into the cache.  Every failure path returns the empty list. -/
def get_directory_contents (w : DirWorld) (st : HState) (offset : Nat)
    (inode : Option Nat) : List DirEntry × HState :=
  match List.lookup (offset, inode) st.dirCache with
  | some v => (v, st)
  | none =>
    let r := get_fs_info w st offset
    if r.1 then
      match w.dirAt offset (dirKey inode) with
      | none => ([], r.2)
      | some raw =>
        let es := listEntries raw
        (es, { r.2 with dirCache := ((offset, inode), es) :: r.2.dirCache })
    else ([], r.2)

/-- File record built by ImageHandler.get_file_metadata for the recursive
walk (the timestamp fields use the walk's own safe_datetime, which lacks
the zero check; crtime is additionally guarded by hasattr). -/
structure FileRecord where
  name : String
  path : String
  size : Nat
  accessed : String
  modified : String
  created : String
  changed : String
  inode_item : String
deriving DecidableEq

/-- Metadata available on a regular file reached by the recursive walk. -/
structure WalkMeta where
  size : Nat
  addr : Nat
  atime : Option Nat
  mtime : Option Nat
  crtime : Option Nat
  ctime : Option Nat
deriving DecidableEq

/-- Model of os.path.join for the paths the walk builds. -/
def joinPath (p n : String) : String :=
  if p.data.getLast? == some '/' then p ++ n else p ++ "/" ++ n

/-- ImageHandler.get_file_metadata: builds the record for one regular file;
note its safe_datetime only maps None to "N/A". -/
def get_file_metadata (name parent_path : String) (m : WalkMeta) : FileRecord :=
  { name := name
    path := joinPath parent_path name
    size := m.size
    accessed := safe_datetime_metadata m.atime
    modified := safe_datetime_metadata m.mtime
    created := match m.crtime with
      | none => "N/A"
      | some v => safe_datetime_metadata (some v)
    changed := safe_datetime_metadata m.ctime
    inode_item := toString m.addr }

/-- Abstract open file (`fs.open_meta` result): its reported size and the
behaviour of `read_random(offset, size)`, where `none` models a raised read
error. -/
structure FileObj where
  size : Nat
  readRandom : Nat → Nat → Option (List Nat)

/-- Chunked read loop of ImageHandler.get_file_content for files above the
large-file threshold: fixed-size chunks appended in order, a zero-length
chunk ends the loop early, a raised read error aborts the whole function
(propagated here as `none` and caught by the caller's except). -/
def chunkLoop (read : Nat → Nat → Option (List Nat)) (remaining current : Nat)
    (acc : List Nat) : Option (List Nat) :=
  if _h : remaining = 0 then some acc
  else
    match read current (min remaining CHUNK_SIZE) with
    | none => none
    | some [] => some acc
    | some (c :: cs) =>
      chunkLoop read (remaining - (c :: cs).length) (current + (c :: cs).length)
        (acc ++ (c :: cs))
termination_by remaining
decreasing_by simp only [List.length_cons]; omega

/-- ImageHandler.get_file_content: `(None, None)` when the filesystem is
unavailable, the inode cannot be opened, the size is zero, or any read
raises; otherwise the content (single-shot at or below the threshold,
chunked above it) together with the metadata, modelled by the file size. -/
def get_file_content (fsOk : Bool) (openMeta : Option FileObj) :
    Option (List Nat) × Option Nat :=
  if !fsOk then (none, none)
  else
    match openMeta with
    | none => (none, none)
    | some f =>
      if f.size = 0 then (none, none)
      else if LARGE_FILE_THRESHOLD < f.size then
        match chunkLoop f.readRandom f.size 0 [] with
        | none => (none, none)
        | some content => (some content, some f.size)
      else
        match f.readRandom 0 f.size with
        | none => (none, none)
        | some content => (some content, some f.size)

/-- Reference single-shot read of a byte range from in-memory content: the
small-file branch's `read_random(offset, size)` on a file whose underlying
reads return the requested bytes. -/
def singleShot (data : List Nat) (offset size : Nat) : List Nat :=
  (data.drop offset).take size

/-- File object whose underlying reads return exactly the requested bytes of
`data` and whose reported size is the real size, the premise of the
chunked/single-shot equivalence claim. -/
def fullFileObj (data : List Nat) : FileObj :=
  { size := data.length
    readRandom := fun o s => some (singleShot data o s) }

/-- Does a character list occur contiguously inside another (Python's
`needle in haystack` on strings)? -/
def startsWithChars : List Char → List Char → Bool
  | [], _ => true
  | _ :: _, [] => false
  | a :: as, b :: bs => a == b && startsWithChars as bs

/-- Substring occurrence check used to model Python's `in` on strings. -/
def containsSub (needle : List Char) : List Char → Bool
  | [] => needle.isEmpty
  | c :: rest => startsWithChars needle (c :: rest) || containsSub needle rest

/-- Python truthiness of the optional search-query string: None and the
empty string are falsy. -/
def strTruthy : Option String → Bool
  | none => false
  | some s => !(s == "")

/-- Filter decision of ImageHandler.recursive_file_search for one file name:
with a truthy search query, a query starting with a dot must equal the
lower-cased extension exactly, any other query must occur case-insensitively
in the file name; without a query the file matches when the extension list
is absent, contains the lower-cased extension, or contains the empty
string. -/
def queryMatches (extensions : Option (List String)) (searchQuery : Option String)
    (fileName : String) : Bool :=
  let fileExtension := lowerStr (splitextExt fileName)
  if strTruthy searchQuery then
    let q := searchQuery.getD ""
    if q.data.head? == some '.' then fileExtension == lowerStr q
    else containsSub (lowerStr q).data (lowerStr fileName).data
  else
    match extensions with
    | none => true
    | some exts => exts.contains fileExtension || exts.contains ""

mutual
/-- Node of an abstract filesystem tree walked by recursive_file_search: a
regular file, a directory (whose open may fail), or an entry of another
meta type.  `entryFails` models an exception inside the per-entry try. -/
inductive FNode where
  | file (name : String) (entryFails : Bool) (meta : WalkMeta) : FNode
  | dir (name : String) (entryFails openFails : Bool) (children : FForest) : FNode
  | other (name : String) : FNode
/-- Sibling list of tree nodes (in directory iteration order). -/
inductive FForest where
  | nil : FForest
  | cons (hd : FNode) (tl : FForest) : FForest
end

mutual
/-- recursive_file_search restricted to one entry: synthetic names and
failing entries are skipped, directories recurse (a failed open skips that
subtree only), and a regular file contributes its metadata record when the
filter matches. -/
def searchNode (exts : Option (List String)) (q : Option String)
    (parent : String) : FNode → List FileRecord
  | FNode.file name fails m =>
    if fails || name == "." || name == ".." then []
    else if queryMatches exts q name then [get_file_metadata name parent m] else []
  | FNode.dir name fails openF children =>
    if fails || name == "." || name == ".." then []
    else if openF then []
    else searchForest exts q (joinPath parent name) children
  | FNode.other _ => []
/-- recursive_file_search over a sibling list, preserving order. -/
def searchForest (exts : Option (List String)) (q : Option String)
    (parent : String) : FForest → List FileRecord
  | FForest.nil => []
  | FForest.cons n rest =>
    searchNode exts q parent n ++ searchForest exts q parent rest
end

mutual
/-- Regular files the walk visits (those surviving the synthetic-name check,
not failing, and sitting under directories that open successfully), each as
(name, parent path, metadata) in visit order. -/
def visitedFiles (parent : String) : FNode → List (String × String × WalkMeta)
  | FNode.file name fails m =>
    if fails || name == "." || name == ".." then [] else [(name, parent, m)]
  | FNode.dir name fails openF children =>
    if fails || name == "." || name == ".." || openF then []
    else visitedForest (joinPath parent name) children
  | FNode.other _ => []
/-- Visited regular files of a sibling list. -/
def visitedForest (parent : String) : FForest → List (String × String × WalkMeta)
  | FForest.nil => []
  | FForest.cons n rest => visitedFiles parent n ++ visitedForest parent rest
end

/-- Abstract outcomes of the collaborators used by
ImageHandler.get_windows_version: filesystem availability, filesystem type
string, the extracted hive blob (None when absent or unreadable), whether
`Registry.Registry` plus `reg.open` succeed, and the per-name value lookup
(`none` models RegistryValueNotFoundException). -/
structure RegWorld where
  fsOk : Bool
  fsType : String
  hiveData : Option (List Nat)
  regParseOk : Bool
  regValues : String → Option String

/-- Result of get_windows_version together with whether the temporary hive
file written during the call still exists when the call returns. -/
structure RegOutcome where
  result : Option String
  tempFileRemains : Bool

/-- The get_reg_value helper: a missing value is substituted by "N/A". -/
def get_reg_value (values : String → Option String) (name : String) : String :=
  (values name).getD "N/A"

/-- ImageHandler.get_windows_version: short-circuits on an unavailable
filesystem, a non-NTFS filesystem, or a missing hive; otherwise writes the
hive to a temporary file and parses it.  The `os.remove` cleanup sits on the
straight-line path after parsing, so the except-path (registry parsing
raising) returns the error string with the temporary file still on disk. -/
def get_windows_version (w : RegWorld) : RegOutcome :=
  if !w.fsOk then { result := none, tempFileRemains := false }
  else if w.fsType != "NTFS" then { result := none, tempFileRemains := false }
  else
    match w.hiveData with
    | none => { result := none, tempFileRemains := false }
    | some _ =>
      if w.regParseOk then
        let product_name := get_reg_value w.regValues "ProductName"
        let current_version := get_reg_value w.regValues "CurrentVersion"
        let current_build := get_reg_value w.regValues "CurrentBuild"
        let registered_owner := get_reg_value w.regValues "RegisteredOwner"
        let csd_version := get_reg_value w.regValues "CSDVersion"
        let product_id := get_reg_value w.regValues "ProductId"
        let os_version := product_name ++ " Version " ++ current_version ++
          "\nBuild " ++ current_build ++ " " ++ csd_version ++
          "\nOwner: " ++ registered_owner ++ "\nProduct ID: " ++ product_id
        { result := some os_version, tempFileRemains := false }
      else
        { result := some "Error in parsing OS version", tempFileRemains := true }

/-- Stored member of a ZIP archive as reported by the external zipfile
library: its path, date_time 6-tuple, reported size, and stored bytes. -/
structure ZipMember where
  filename : String
  date_time : Nat × Nat × Nat × Nat × Nat × Nat
  file_size : Nat
  content : List Nat
deriving DecidableEq

/-- Entry record built by MainWindow._get_zip_contents for one member. -/
structure ZipEntry where
  name : String
  path : String
  size : Nat
  is_directory : Bool
  inode_number : Option Nat
  created : String
  accessed : String
  modified : String
  changed : String
  zip_path : String
  zip_parent_inode : Nat
  zip_parent_offset : Nat
deriving DecidableEq

/-- Python str.rstrip applied with the path separator: drop every trailing
slash. -/
def rstripSlash (s : String) : String :=
  String.mk ((s.data.reverse.dropWhile (fun c => c == '/')).reverse)

/-- Build the ZIP entry record, field by field as in _get_zip_contents:
directory status from the trailing separator of the stored path, the
display name with trailing separators stripped, no inode, and one formatted
timestamp reused for all four date fields (`fmt` models the external
datetime constructor plus strftime, `none` a raised exception mapped to
"N/A"). -/
def mkZipEntry (fmt : Nat × Nat × Nat × Nat × Nat × Nat → Option String)
    (inode offset : Nat) (m : ZipMember) : ZipEntry :=
  let ts := (fmt m.date_time).getD "N/A"
  { name := rstripSlash m.filename
    path := m.filename
    size := m.file_size
    is_directory := m.filename.data.getLast? == some '/'
    inode_number := none
    created := ts
    accessed := ts
    modified := ts
    changed := ts
    zip_path := m.filename
    zip_parent_inode := inode
    zip_parent_offset := offset }

/-- MainWindow._get_zip_contents: None for missing or falsy content, None
when the first two bytes are not the PK signature, None when the zipfile
library rejects the blob (`parseZip` returning `none` models BadZipFile or
any other raised error), and otherwise one entry per stored member, in
order. -/
def get_zip_contents (fmt : Nat × Nat × Nat × Nat × Nat × Nat → Option String)
    (parseZip : List Nat → Option (List ZipMember))
    (fileContent : Option (List Nat)) (inode offset : Nat) :
    Option (List ZipEntry) :=
  match fileContent with
  | none => none
  | some content =>
    if content.isEmpty then none
    else if content.take 2 == [80, 75] then
      match parseZip content with
      | none => none
      | some members => some (members.map (mkZipEntry fmt inode offset))
    else none

/-- MainWindow._extract_zip_entry: re-extract the host file, hand it to the
zipfile library, and read the named member; a missing member (KeyError), a
rejected blob, or missing host content all degrade to None. -/
def extract_zip_entry (parseZip : List Nat → Option (List ZipMember))
    (fileContent : Option (List Nat)) (zip_path : String) : Option (List Nat) :=
  match fileContent with
  | none => none
  | some content =>
    if content.isEmpty then none
    else
      match parseZip content with
      | none => none
      | some members =>
        match members.find? (fun m => m.filename == zip_path) with
        | none => none
        | some m => some m.content

/-- Consistency of the directory-listing cache: every cached value is the
processed listing of a directory that the backend opened successfully. -/
def cacheConsistent (w : DirWorld) (st : HState) : Prop :=
  ∀ key v, List.lookup key st.dirCache = some v →
    ∃ raw, w.dirAt key.1 (dirKey key.2) = some raw ∧ v = listEntries raw

/-- C5: extension classification is total and keyed only on the lower-cased
extension of the path (the function never receives file content): segmented
extensions yield "ewf", linear-raw extensions yield "raw", and every other
extension yields an explicit classification error. -/
theorem get_image_type_classifies (p : String) :
    (get_image_type p = Except.ok "ewf" ↔ lowerStr (splitextExt p) ∈ ewfExts)
    ∧ (get_image_type p = Except.ok "raw" ↔ lowerStr (splitextExt p) ∈ rawExts)
    ∧ (lowerStr (splitextExt p) ∉ ewfExts → lowerStr (splitextExt p) ∉ rawExts →
        get_image_type p =
          Except.error ("Unsupported image type: " ++ lowerStr (splitextExt p))) := by
  have hdisj : ∀ s ∈ rawExts, s ∉ ewfExts := by decide
  unfold get_image_type
  set ext := lowerStr (splitextExt p) with hext
  by_cases h1 : ewfExts.contains ext
  · have m1 : ext ∈ ewfExts := List.elem_iff.mp h1
    simp only [h1, if_true]
    refine ⟨by simp [m1], ⟨by simp, fun hm => absurd m1 (hdisj ext hm)⟩, ?_⟩
    intro hne
    exact absurd m1 hne
  · have m1 : ext ∉ ewfExts := fun hm => h1 (List.elem_iff.mpr hm)
    simp only [h1, if_false]
    by_cases h2 : rawExts.contains ext
    · have m2 : ext ∈ rawExts := List.elem_iff.mp h2
      simp only [h2, if_true]
      exact ⟨⟨by simp, fun hm => absurd hm m1⟩, by simp [m2], fun _ hm => absurd m2 hm⟩
    · have m2 : ext ∉ rawExts := fun hm => h2 (List.elem_iff.mpr hm)
      simp only [h2, if_false]
      exact ⟨⟨by simp, fun hm => absurd hm m1⟩, ⟨by simp, fun hm => absurd hm m2⟩,
        fun _ _ => rfl⟩

/-- Witness for the classification theorem at concrete paths: an EWF path,
a raw path, and an unknown extension. -/
theorem get_image_type_classifies_witness :
    get_image_type "/evidence/disk.E01" = Except.ok "ewf"
    ∧ get_image_type "/evidence/disk.dd" = Except.ok "raw"
    ∧ get_image_type "/evidence/disk.txt" =
        Except.error "Unsupported image type: .txt" := by
  refine ⟨?_, ?_, ?_⟩
  · exact (get_image_type_classifies "/evidence/disk.E01").1.mpr (by decide)
  · exact (get_image_type_classifies "/evidence/disk.dd").2.1.mpr (by decide)
  · exact (get_image_type_classifies "/evidence/disk.txt").2.2 (by decide) (by decide)

/-- C1 counterexample: the claim says a volume-table parse that succeeds but
yields nothing usable falls through to the filesystem probe at offset 0, so
with a mountable filesystem there the catalog would report
bare_filesystem = true.  In the code the probe runs only inside the except
branch, so when the parse succeeds with an empty table (`some []`) and the
probe at offset 0 would succeed, the catalog still reports
bare_filesystem = false (with wiped = false and no volumes). -/
theorem discover_empty_table_counterexample :
    (discover { parseResult := some [], probeRoot := true }).bare_filesystem = false
    ∧ (discover { parseResult := some [], probeRoot := true }).wiped = false
    ∧ (discover { parseResult := some [], probeRoot := true }).volumes = [] := by
  decide

/-- C1 amended: the classification never throws and is exhaustive, with the
probe fallback triggered only by a failing volume-table parse: a successful
parse with at least one non-empty-description entry gives wiped = false and
a non-empty volume list; a successful parse with no usable entry gives
wiped = false, bare_filesystem = false and an empty list (no probe); a
failing parse with a successful probe at offset 0 gives wiped = false,
bare_filesystem = true and an empty list; and a failing parse with a failing
probe gives wiped = true and an empty list. -/
theorem discover_three_tier (w : VolWorld) :
    (∀ ps, w.parseResult = some ps → (∃ p ∈ ps, p.desc ≠ "") →
      (discover w).wiped = false ∧ (discover w).volumes ≠ []
        ∧ (discover w).bare_filesystem = false)
    ∧ (∀ ps, w.parseResult = some ps → (∀ p ∈ ps, p.desc = "") →
      discover w = { volumes := [], wiped := false, bare_filesystem := false })
    ∧ (w.parseResult = none → w.probeRoot = true →
      discover w = { volumes := [], wiped := false, bare_filesystem := true })
    ∧ (w.parseResult = none → w.probeRoot = false →
      discover w = { volumes := [], wiped := true, bare_filesystem := false }) := by
  refine ⟨?_, ?_, ?_, ?_⟩
  · intro ps hparse ⟨p, hmem, hdesc⟩
    simp only [discover, get_partitions, ensure_volume_info_loaded, hparse]
    refine ⟨trivial, ?_, trivial⟩
    have hp : p ∈ ps.filter (fun p => p.desc != "") :=
      List.mem_filter.mpr ⟨hmem, by simpa using hdesc⟩
    exact List.ne_nil_of_mem (List.mem_map_of_mem _ hp)
  · intro ps hparse hall
    simp only [discover, get_partitions, ensure_volume_info_loaded, hparse]
    have : ps.filter (fun p => p.desc != "") = [] := by
      rw [List.filter_eq_nil_iff]
      intro p hp
      simpa using hall p hp
    simp [this]
  · intro hparse hprobe
    simp [discover, get_partitions, ensure_volume_info_loaded, hparse, hprobe]
  · intro hparse hprobe
    simp [discover, get_partitions, ensure_volume_info_loaded, hparse, hprobe]

/-- Witness for the amended three-tier theorem: a failing parse with a
successful probe at offset 0 is classified as a bare filesystem. -/
theorem discover_three_tier_witness :
    discover { parseResult := none, probeRoot := true }
      = { volumes := [], wiped := false, bare_filesystem := true } :=
  (discover_three_tier { parseResult := none, probeRoot := true }).2.2.1 rfl rfl

/-- Helper: the per-entry loop distributes over concatenation. -/
theorem listEntries_append (l1 l2 : List RawEntry) :
    listEntries (l1 ++ l2) = listEntries l1 ++ listEntries l2 := by
  induction l1 with
  | nil => simp [listEntries]
  | cons e rest ih =>
    simp only [List.cons_append, listEntries]
    by_cases hf : e.fails
    · simp [hf, ih]
    · by_cases hn : (e.name == "." || e.name == "..") = true
      · simp [hf, hn, ih]
      · simp [hf, hn, ih]

/-- Helper: on a run of healthy entries the loop keeps exactly the
non-synthetic ones, in order, each mapped to its record. -/
theorem listEntries_ok (l : List RawEntry) (h : ∀ e ∈ l, e.fails = false) :
    listEntries l
      = (l.filter (fun e => !(e.name == "." || e.name == ".."))).map mkDirEnt := by
  induction l with
  | nil => simp [listEntries]
  | cons e rest ih =>
    have he : e.fails = false := h e (by simp)
    have hrest : ∀ x ∈ rest, x.fails = false := fun x hx => h x (by simp [hx])
    by_cases hn : (e.name == "." || e.name == "..") = true
    · simp_all [listEntries, List.filter_cons]
      have hcond : ¬(¬e.name = "." ∧ ¬e.name = "..") := by
        rcases hn with h | h <;> simp [h]
      rw [if_neg hcond]
    · simp_all [listEntries, List.filter_cons]

/-- Helper: get_fs_info never touches the directory cache. -/
theorem get_fs_info_dirCache (w : DirWorld) (st : HState) (offset : Nat) :
    (get_fs_info w st offset).2.dirCache = st.dirCache := by
  unfold get_fs_info
  by_cases h1 : offset ∈ st.fsCache
  · simp [h1]
  · by_cases h2 : w.fsOpen offset
    · simp [h1, h2]
    · simp [h1, h2]

/-- Helper: a failing mount leaves the whole handler state unchanged. -/
theorem get_fs_info_fail (w : DirWorld) (st : HState) (offset : Nat)
    (h : (get_fs_info w st offset).1 = false) :
    get_fs_info w st offset = (false, st) := by
  unfold get_fs_info at h ⊢
  by_cases h1 : offset ∈ st.fsCache
  · simp [h1] at h
  · by_cases h2 : w.fsOpen offset
    · simp [h1, h2] at h
    · simp [h1, h2]

/-- C2: per-entry fault isolation of the directory listing.  With a cache
miss, a mountable filesystem and an openable directory whose raw entries are
`pre ++ k :: post` where exactly entry `k` raises during metadata
extraction, the listing returns exactly the records of the remaining
entries minus the synthetic "." and ".." ones, never raises (the function is
total), and is non-empty whenever some remaining entry is non-synthetic. -/
theorem get_directory_contents_fault_isolation (w : DirWorld) (st : HState)
    (offset : Nat) (inode : Option Nat) (pre post : List RawEntry) (k : RawEntry)
    (hcache : List.lookup (offset, inode) st.dirCache = none)
    (hfs : (get_fs_info w st offset).1 = true)
    (hdir : w.dirAt offset (dirKey inode) = some (pre ++ k :: post))
    (hk : k.fails = true)
    (hok : ∀ e ∈ pre ++ post, e.fails = false) :
    (get_directory_contents w st offset inode).1
      = ((pre ++ post).filter (fun e => !(e.name == "." || e.name == ".."))).map mkDirEnt
    ∧ ((pre ++ post).any (fun e => !(e.name == "." || e.name == "..")) = true →
        (get_directory_contents w st offset inode).1 ≠ []) := by
  have hres : (get_directory_contents w st offset inode).1
      = listEntries (pre ++ k :: post) := by
    unfold get_directory_contents
    simp [hcache, hfs, hdir]
  have hsplit : listEntries (pre ++ k :: post) = listEntries (pre ++ post) := by
    rw [listEntries_append, listEntries_append]
    congr 1
    simp [listEntries, hk]
  have hmain : (get_directory_contents w st offset inode).1
      = ((pre ++ post).filter (fun e => !(e.name == "." || e.name == ".."))).map mkDirEnt := by
    rw [hres, hsplit, listEntries_ok _ hok]
  refine ⟨hmain, fun hany => ?_⟩
  rw [hmain]
  obtain ⟨e, hmem, hpred⟩ := List.any_eq_true.mp hany
  exact List.ne_nil_of_mem (List.mem_map_of_mem _ (List.mem_filter.mpr ⟨hmem, hpred⟩))

/-- Witness for fault isolation: a three-entry directory where the middle
entry raises yields exactly the two healthy records. -/
theorem get_directory_contents_fault_isolation_witness :
    (get_directory_contents
      { fsOpen := fun _ => true
        dirAt := fun _ _ => some
          [{ name := "a", meta := none, fails := false },
           { name := "b", meta := none, fails := true },
           { name := "c", meta := none, fails := false }] }
      { fsCache := [], dirCache := [] } 0 none).1
      = [mkDirEnt { name := "a", meta := none, fails := false },
         mkDirEnt { name := "c", meta := none, fails := false }] := by
  have h := get_directory_contents_fault_isolation
    { fsOpen := fun _ => true
      dirAt := fun _ _ => some
        [{ name := "a", meta := none, fails := false },
         { name := "b", meta := none, fails := true },
         { name := "c", meta := none, fails := false }] }
    { fsCache := [], dirCache := [] } 0 none
    [{ name := "a", meta := none, fails := false }]
    [{ name := "c", meta := none, fails := false }]
    { name := "b", meta := none, fails := true }
    rfl rfl rfl rfl (by decide)
  rw [h.1]
  decide

/-- C10: only successful directory opens populate the directory cache.  On a
cache miss where the mount or the directory open fails, the call returns the
empty list and leaves the cache without an entry for that key (so a later
call re-attempts the open); and a consistent cache (every cached value comes
from a successfully opened directory, being exactly its processed listing)
stays consistent across any call. -/
theorem get_directory_contents_cache_discipline (w : DirWorld) (st : HState)
    (offset : Nat) (inode : Option Nat) :
    ((List.lookup (offset, inode) st.dirCache = none →
      ((get_fs_info w st offset).1 = false ∨ w.dirAt offset (dirKey inode) = none) →
      (get_directory_contents w st offset inode).1 = []
      ∧ List.lookup (offset, inode)
          (get_directory_contents w st offset inode).2.dirCache = none))
    ∧ (cacheConsistent w st →
        cacheConsistent w (get_directory_contents w st offset inode).2) := by
  constructor
  · intro hmiss hfail
    unfold get_directory_contents
    rw [hmiss]
    rcases hfail with hfs | hdir
    · rw [get_fs_info_fail w st offset hfs]
      simpa using hmiss
    · by_cases hfs : (get_fs_info w st offset).1 = true
      · simp only [hfs, if_true, hdir]
        rw [get_fs_info_dirCache]
        exact ⟨trivial, hmiss⟩
      · rw [get_fs_info_fail w st offset (by simpa using hfs)]
        simpa using hmiss
  · intro hcons
    unfold get_directory_contents
    cases hhit : List.lookup (offset, inode) st.dirCache with
    | some v => exact hcons
    | none =>
      by_cases hfs : (get_fs_info w st offset).1 = true
      · simp only [hfs, if_true]
        cases hdir : w.dirAt offset (dirKey inode) with
        | none =>
          intro key v hv
          rw [get_fs_info_dirCache] at hv
          exact hcons key v hv
        | some raw =>
          intro key v hv
          rw [List.lookup_cons] at hv
          by_cases hkey : (key == (offset, inode)) = true
          · simp only [hkey] at hv
            have hkeq : key = (offset, inode) := eq_of_beq hkey
            refine ⟨raw, by rw [hkeq]; exact hdir, ?_⟩
            exact (Option.some_inj.mp hv).symm
          · have hkf : (key == (offset, inode)) = false := by simpa using hkey
            simp only [hkf] at hv
            rw [get_fs_info_dirCache] at hv
            exact hcons key v hv
      · rw [get_fs_info_fail w st offset (by simpa using hfs)]
        simpa using hcons

/-- Witness for the cache discipline theorem: with an unmountable offset a
call returns the empty listing and caches nothing, and consistency of the
empty cache is preserved. -/
theorem get_directory_contents_cache_discipline_witness :
    (get_directory_contents { fsOpen := fun _ => false, dirAt := fun _ _ => none }
      { fsCache := [], dirCache := [] } 7 (some 3)).1 = []
    ∧ List.lookup (7, some 3)
        (get_directory_contents { fsOpen := fun _ => false, dirAt := fun _ _ => none }
          { fsCache := [], dirCache := [] } 7 (some 3)).2.dirCache = none := by
  exact (get_directory_contents_cache_discipline
    { fsOpen := fun _ => false, dirAt := fun _ _ => none }
    { fsCache := [], dirCache := [] } 7 (some 3)).1 rfl (Or.inl rfl)

/-- Helper: when no underlying read raises, the chunk loop never fails. -/
theorem chunkLoop_isSome (read : Nat → Nat → Option (List Nat))
    (h : ∀ o s, read o s ≠ none) :
    ∀ remaining current acc, chunkLoop read remaining current acc ≠ none := by
  intro remaining
  induction remaining using Nat.strong_induction_on with
  | _ remaining ih =>
    intro current acc
    rw [chunkLoop]
    by_cases h0 : remaining = 0
    · simp [h0]
    · rw [dif_neg h0]
      cases hr : read current (min remaining CHUNK_SIZE) with
      | none => exact absurd hr (h _ _)
      | some chunk =>
        cases chunk with
        | nil => simp
        | cons c cs =>
          exact ih _ (Nat.sub_lt (Nat.pos_of_ne_zero h0) (by simp)) _ _

/-- Helper: on a file whose reads return exactly the requested byte range of
`data`, the chunk loop appends the chunks in order and reproduces the whole
remaining range. -/
theorem chunkLoop_full (data : List Nat) :
    ∀ remaining current acc, current + remaining = data.length →
      chunkLoop (fun o s => some (singleShot data o s)) remaining current acc
        = some (acc ++ data.drop current) := by
  intro remaining
  induction remaining using Nat.strong_induction_on with
  | _ remaining ih =>
    intro current acc hlen
    rw [chunkLoop]
    by_cases h0 : remaining = 0
    · rw [dif_pos h0]
      have hnil : data.drop current = [] := List.drop_eq_nil_of_le (by omega)
      simp [hnil]
    · rw [dif_neg h0]
      have hdl : (data.drop current).length = remaining := by
        rw [List.length_drop]; omega
      have hCpos : 0 < CHUNK_SIZE := by norm_num [CHUNK_SIZE]
      have hlen2 : (singleShot data current (min remaining CHUNK_SIZE)).length
          = min remaining CHUNK_SIZE := by
        simp only [singleShot, List.length_take, hdl]
        omega
      have hpos : 0 < (singleShot data current (min remaining CHUNK_SIZE)).length := by
        rw [hlen2]; omega
      cases hc : singleShot data current (min remaining CHUNK_SIZE) with
      | nil => rw [hc] at hpos; simp at hpos
      | cons c cs =>
        simp only [hc]
        have hL : (c :: cs).length = min remaining CHUNK_SIZE := by
          rw [← hc, hlen2]
        have hdecomp : data.drop current
            = (c :: cs) ++ data.drop (current + (c :: cs).length) := by
          have h1 := List.take_append_drop ((c :: cs).length) (data.drop current)
          have h2 : (data.drop current).take ((c :: cs).length) = c :: cs := by
            rw [hL]; exact hc
          rw [h2] at h1
          rw [← h1]
          congr 1
          rw [List.drop_drop]
        rw [ih (remaining - (c :: cs).length)
          (Nat.sub_lt (Nat.pos_of_ne_zero h0) (by simp))
          (current + (c :: cs).length) (acc ++ (c :: cs)) (by omega)]
        rw [List.append_assoc, ← hdecomp]

/-- C3: sentinel behaviour of file extraction — the function (a total
translation: every exception path ends in a sentinel) returns (None, None)
when the filesystem is unavailable, when the inode cannot be opened, when
the size is zero, and when any read raises in either the single-shot or the
chunked branch; and for a file of size at least one none of whose reads
raise it returns non-null content together with non-null metadata. -/
theorem get_file_content_sentinels (fsOk : Bool) (o : Option FileObj) :
    (fsOk = false → get_file_content fsOk o = (none, none))
    ∧ (o = none → get_file_content fsOk o = (none, none))
    ∧ (∀ f, o = some f → f.size = 0 → get_file_content fsOk o = (none, none))
    ∧ (∀ f, o = some f → ¬(LARGE_FILE_THRESHOLD < f.size) →
        f.readRandom 0 f.size = none → get_file_content fsOk o = (none, none))
    ∧ (∀ f, o = some f → LARGE_FILE_THRESHOLD < f.size →
        chunkLoop f.readRandom f.size 0 [] = none →
        get_file_content fsOk o = (none, none))
    ∧ (∀ f, o = some f → fsOk = true → 1 ≤ f.size →
        (∀ off s, f.readRandom off s ≠ none) →
        ∃ bs m, get_file_content fsOk o = (some bs, some m)) := by
  refine ⟨?_, ?_, ?_, ?_, ?_, ?_⟩
  · intro hfs; simp [get_file_content, hfs]
  · intro ho; cases fsOk <;> simp [get_file_content, ho]
  · intro f ho hsz
    cases fsOk <;> simp [get_file_content, ho, hsz]
  · intro f ho hsmall hread
    cases fsOk with
    | false => simp [get_file_content]
    | true =>
      by_cases hsz : f.size = 0
      · simp [get_file_content, ho, hsz]
      · simp [get_file_content, ho, hsz, hsmall, hread]
  · intro f ho hlarge hloop
    cases fsOk with
    | false => simp [get_file_content]
    | true =>
      have hsz : ¬(f.size = 0) := by omega
      simp [get_file_content, ho, hsz, hlarge, hloop]
  · intro f ho hfs hsz hreads
    subst ho hfs
    by_cases hlarge : LARGE_FILE_THRESHOLD < f.size
    · cases hloop : chunkLoop f.readRandom f.size 0 [] with
      | none => exact absurd hloop (chunkLoop_isSome f.readRandom hreads f.size 0 [])
      | some content =>
        refine ⟨content, f.size, ?_⟩
        simp [get_file_content, hlarge, hloop]
        omega
    · cases hread : f.readRandom 0 f.size with
      | none => exact absurd hread (hreads 0 f.size)
      | some content =>
        refine ⟨content, f.size, ?_⟩
        simp [get_file_content, hlarge, hread]
        omega

/-- Witness for the sentinel theorem: a zero-byte file yields (None, None)
and a one-byte file whose read succeeds yields content and metadata. -/
theorem get_file_content_sentinels_witness :
    get_file_content true (some { size := 0, readRandom := fun _ _ => some [] })
      = (none, none)
    ∧ ∃ bs m, get_file_content true
        (some { size := 1, readRandom := fun _ _ => some [7] }) = (some bs, some m) := by
  constructor
  · exact (get_file_content_sentinels true
      (some { size := 0, readRandom := fun _ _ => some [] })).2.2.1 _ rfl rfl
  · exact (get_file_content_sentinels true
      (some { size := 1, readRandom := fun _ _ => some [7] })).2.2.2.2.2 _ rfl rfl
      (by norm_num) (fun _ _ => by simp)

/-- C4: chunked and single-shot reads agree.  For a file whose underlying
reads return the requested bytes and whose size exceeds the large-file
threshold, the chunked path returns content equal to the reference
single-shot read of the same offset range, with length equal to the file's
real size. -/
theorem get_file_content_chunked_eq_single_shot (data : List Nat)
    (h : LARGE_FILE_THRESHOLD < data.length) :
    get_file_content true (some (fullFileObj data))
      = (some (singleShot data 0 data.length), some data.length)
    ∧ (singleShot data 0 data.length).length = data.length := by
  have hss : singleShot data 0 data.length = data := by
    simp [singleShot]
  constructor
  · have hsz : ¬((fullFileObj data).size = 0) := by
      simp only [fullFileObj]
      omega
    have hloop := chunkLoop_full data data.length 0 [] (by omega)
    have hne : ¬data = [] := by
      intro hnil
      rw [hnil] at h
      norm_num [LARGE_FILE_THRESHOLD] at h
    simp [get_file_content, fullFileObj, hsz, h, hloop, hss, hne]
  · simp [hss]

/-- Witness for the chunked/single-shot equivalence at a file of exactly
LARGE_FILE_THRESHOLD + 1 bytes. -/
theorem get_file_content_chunked_eq_single_shot_witness :
    get_file_content true
        (some (fullFileObj (List.replicate (LARGE_FILE_THRESHOLD + 1) 0)))
      = (some (singleShot (List.replicate (LARGE_FILE_THRESHOLD + 1) 0) 0
            (List.replicate (LARGE_FILE_THRESHOLD + 1) 0).length),
         some (List.replicate (LARGE_FILE_THRESHOLD + 1) 0).length)
    ∧ (singleShot (List.replicate (LARGE_FILE_THRESHOLD + 1) 0) 0
        (List.replicate (LARGE_FILE_THRESHOLD + 1) 0).length).length
        = (List.replicate (LARGE_FILE_THRESHOLD + 1) 0).length :=
  get_file_content_chunked_eq_single_shot
    (List.replicate (LARGE_FILE_THRESHOLD + 1) 0) (by simp)

/-- C6 counterexample: the claim says both traversal layers render a zero
timestamp as "N/A", but the recursive walk's metadata builder
(get_file_metadata) checks only for an absent timestamp, so an access time
of 0 renders as the epoch-zero date text. -/
theorem get_file_metadata_epoch_zero_counterexample :
    (get_file_metadata "f" "/"
      { size := 0, addr := 5, atime := some 0, mtime := none,
        crtime := none, ctime := none }).accessed = epochZeroText
    ∧ epochZeroText ≠ "N/A" := by
  constructor
  · decide
  · decide

/-- C6 amended: in the non-recursive listing every zero-or-absent timestamp
field renders as "N/A" (and a missing meta block renders all four fields as
"N/A"), while in the recursive walk's metadata records only an absent
timestamp renders as "N/A" and a zero timestamp renders as the epoch-zero
date text. -/
theorem timestamp_normalization (t : Option Nat) (e : RawEntry) (m : RawMeta) :
    ((t = none ∨ t = some 0) → safe_datetime_listing t = "N/A")
    ∧ (e.meta = some m → (m.atime = none ∨ m.atime = some 0) →
        (mkDirEnt e).accessed = "N/A")
    ∧ (e.meta = some m → (m.mtime = none ∨ m.mtime = some 0) →
        (mkDirEnt e).modified = "N/A")
    ∧ (e.meta = some m → (m.crtime = none ∨ m.crtime = some 0) →
        (mkDirEnt e).created = "N/A")
    ∧ (e.meta = some m → (m.ctime = none ∨ m.ctime = some 0) →
        (mkDirEnt e).changed = "N/A")
    ∧ (e.meta = none → (mkDirEnt e).accessed = "N/A" ∧ (mkDirEnt e).modified = "N/A"
        ∧ (mkDirEnt e).created = "N/A" ∧ (mkDirEnt e).changed = "N/A")
    ∧ safe_datetime_metadata none = "N/A"
    ∧ safe_datetime_metadata (some 0) = epochZeroText := by
  have hna : ∀ u : Option Nat, (u = none ∨ u = some 0) →
      safe_datetime_listing u = "N/A" := by
    rintro u (rfl | rfl) <;> simp [safe_datetime_listing]
  refine ⟨hna t, ?_, ?_, ?_, ?_, ?_, by simp [safe_datetime_metadata], by decide⟩
  · intro hm ht
    simp [mkDirEnt, hm, hna m.atime ht]
  · intro hm ht
    simp [mkDirEnt, hm, hna m.mtime ht]
  · intro hm ht
    simp [mkDirEnt, hm, hna m.crtime ht]
  · intro hm ht
    simp [mkDirEnt, hm, hna m.ctime ht]
  · intro hm
    simp [mkDirEnt, hm]

/-- Witness for timestamp normalization: a listing entry holding a zero
access time and an absent modification time renders both as "N/A". -/
theorem timestamp_normalization_witness :
    (mkDirEnt ⟨"f", some ⟨false, 1, some 3, some 0, none, some 9, some 9⟩, false⟩).accessed
      = "N/A"
    ∧ safe_datetime_listing (some 0) = "N/A" := by
  constructor
  · exact (timestamp_normalization (some 0)
      ⟨"f", some ⟨false, 1, some 3, some 0, none, some 9, some 9⟩, false⟩
      ⟨false, 1, some 3, some 0, none, some 9, some 9⟩).2.1 rfl (Or.inr rfl)
  · exact (timestamp_normalization (some 0)
      ⟨"f", none, false⟩
      ⟨false, 1, some 3, some 0, none, some 9, some 9⟩).1 (Or.inr rfl)

/-- C7 counterexample: the claim reads the empty-string member of the
extension allow-list as "files with no extension also match", but the code
tests `or empty in extensions` independently of the file's extension, so an
allow-list of just the empty string matches a file that does have an
extension not in the list. -/
theorem queryMatches_empty_member_counterexample :
    queryMatches (some [""]) none "a.xyz" = true
    ∧ lowerStr (splitextExt "a.xyz") ∉ ([""] : List String)
    ∧ splitextExt "a.xyz" ≠ "" := by
  refine ⟨by decide, by decide, by decide⟩

mutual
/-- Helper: one walk step keeps exactly the visited regular files that pass
the filter, mapped to their metadata records. -/
theorem searchNode_filter_eq (exts : Option (List String)) (q : Option String) :
    ∀ (parent : String) (n : FNode),
      searchNode exts q parent n
        = ((visitedFiles parent n).filter (fun t => queryMatches exts q t.1)).map
            (fun t => get_file_metadata t.1 t.2.1 t.2.2)
  | parent, FNode.file name fails m => by
    by_cases hs : (fails || name == "." || name == "..") = true
    · simp [searchNode, visitedFiles, hs]
    · by_cases hq : queryMatches exts q name = true
      · simp [searchNode, visitedFiles, hs, hq]
      · simp [searchNode, visitedFiles, hs, hq]
  | parent, FNode.dir name fails openF children => by
    by_cases hs : (fails || name == "." || name == "..") = true
    · simp [searchNode, visitedFiles, hs]
    · by_cases ho : openF = true
      · simp [searchNode, visitedFiles, hs, ho]
      · have hrec := searchForest_filter_eq exts q (joinPath parent name) children
        simp [searchNode, visitedFiles, hs, ho, hrec]
  | parent, FNode.other name => by
    simp [searchNode, visitedFiles]
/-- Helper: the walk over a sibling list keeps exactly the visited regular
files that pass the filter, in order. -/
theorem searchForest_filter_eq (exts : Option (List String)) (q : Option String) :
    ∀ (parent : String) (f : FForest),
      searchForest exts q parent f
        = ((visitedForest parent f).filter (fun t => queryMatches exts q t.1)).map
            (fun t => get_file_metadata t.1 t.2.1 t.2.2)
  | parent, FForest.nil => by simp [searchForest, visitedForest]
  | parent, FForest.cons n rest => by
    have h1 := searchNode_filter_eq exts q parent n
    have h2 := searchForest_filter_eq exts q parent rest
    simp [searchForest, visitedForest, List.filter_append, h1, h2]
end

/-- C7 amended: the recursive walk collects exactly the visited regular
files passing the filter, where the filter semantics are: in extension mode
a file matches iff its lower-cased extension is in the allow-list or the
allow-list contains the empty string (which therefore matches every file,
not only extension-less ones); in query mode (non-empty query, extensions
ignored) a query with a leading dot matches iff the lower-cased extension
equals the lower-cased query, and any other query matches iff it occurs
case-insensitively in the file name. -/
theorem recursive_search_filter_semantics (oexts : Option (List String))
    (qopt : Option String) (exts : List String) (q fileName parent : String)
    (f : FForest) :
    (queryMatches (some exts) none fileName = true ↔
      (lowerStr (splitextExt fileName) ∈ exts ∨ "" ∈ exts))
    ∧ (q ≠ "" → q.data.head? = some '.' →
        (queryMatches oexts (some q) fileName = true ↔
          lowerStr (splitextExt fileName) = lowerStr q))
    ∧ (q ≠ "" → ¬(q.data.head? = some '.') →
        (queryMatches oexts (some q) fileName = true ↔
          containsSub (lowerStr q).data (lowerStr fileName).data = true))
    ∧ searchForest oexts qopt parent f
        = ((visitedForest parent f).filter (fun t => queryMatches oexts qopt t.1)).map
            (fun t => get_file_metadata t.1 t.2.1 t.2.2) := by
  refine ⟨?_, ?_, ?_, searchForest_filter_eq oexts qopt parent f⟩
  · simp [queryMatches, strTruthy]
  · intro hq hd
    have hb : (q == "") = false := by simpa using hq
    simp [queryMatches, strTruthy, hb, hd]
  · intro hq hd
    have hb : (q == "") = false := by simpa using hq
    have hd' : (q.data.head? == some '.') = false := by
      simpa using hd
    simp [queryMatches, strTruthy, hb, hd']

/-- Witness for the filter semantics: a dotted query matches by exact
extension case-insensitively, and a plain query matches by substring. -/
theorem recursive_search_filter_semantics_witness :
    queryMatches none (some ".jpg") "PIC.JPG" = true
    ∧ queryMatches none (some "Port") "MyReport.txt" = true := by
  constructor
  · exact ((recursive_search_filter_semantics none none [] ".jpg" "PIC.JPG" "/"
      FForest.nil).2.1 (by decide) rfl).mpr (by decide)
  · exact ((recursive_search_filter_semantics none none [] "Port" "MyReport.txt" "/"
      FForest.nil).2.2.1 (by decide) (by decide)).mpr (by decide)

/-- Helper: with pairwise-distinct member paths, the member lookup used by
the zipfile read finds exactly the requested member. -/
theorem find_member_nodup (members : List ZipMember) (m : ZipMember)
    (hnd : (members.map (fun x => x.filename)).Nodup) (hm : m ∈ members) :
    members.find? (fun x => x.filename == m.filename) = some m := by
  induction members with
  | nil => simp at hm
  | cons h t ih =>
    rw [List.map_cons, List.nodup_cons] at hnd
    by_cases hh : (h.filename == m.filename) = true
    · rcases List.mem_cons.mp hm with rfl | hmt
      · exact @List.find?_cons_of_pos ZipMember
          (fun x => x.filename == m.filename) m t hh
      · exfalso
        have hmem : m.filename ∈ t.map (fun x => x.filename) :=
          List.mem_map_of_mem _ hmt
        rw [eq_of_beq hh] at hnd
        exact hnd.1 hmem
    · rw [@List.find?_cons_of_neg ZipMember
        (fun x => x.filename == m.filename) h t hh]
      rcases List.mem_cons.mp hm with rfl | hmt
      · exact absurd (by simp) hh
      · exact ih hnd.2 hmt

/-- C8: archive transparency.  For extracted content carrying the PK
signature that the zipfile library accepts as members, the listing returns
one entry per stored member in order, each marked as a directory exactly
when its stored path ends with the separator and named with trailing
separators stripped; member extraction returns exactly the stored bytes of
the requested member (paths assumed pairwise distinct); and content whose
signature does not match or that the library rejects yields None rather
than partial entries. -/
theorem archive_transparency (fmt : Nat × Nat × Nat × Nat × Nat × Nat → Option String)
    (parseZip : List Nat → Option (List ZipMember)) (content : List Nat)
    (members : List ZipMember) (m : ZipMember) (inode offset : Nat)
    (hpk : content.take 2 = [80, 75])
    (hparse : parseZip content = some members)
    (hnd : (members.map (fun x => x.filename)).Nodup)
    (hm : m ∈ members) :
    get_zip_contents fmt parseZip (some content) inode offset
      = some (members.map (mkZipEntry fmt inode offset))
    ∧ ((mkZipEntry fmt inode offset m).is_directory = true ↔
        m.filename.data.getLast? = some '/')
    ∧ (mkZipEntry fmt inode offset m).name = rstripSlash m.filename
    ∧ extract_zip_entry parseZip (some content) m.filename = some m.content
    ∧ (∀ c2, c2.take 2 ≠ [80, 75] →
        get_zip_contents fmt parseZip (some c2) inode offset = none)
    ∧ (∀ c2, parseZip c2 = none →
        get_zip_contents fmt parseZip (some c2) inode offset = none) := by
  have hne : content.isEmpty = false := by
    cases content with
    | nil => simp at hpk
    | cons c cs => rfl
  have hpk' : (content.take 2 == [80, 75]) = true := beq_iff_eq.mpr hpk
  refine ⟨?_, ?_, rfl, ?_, ?_, ?_⟩
  · simp [get_zip_contents, hne, hpk', hparse]
  · simp [mkZipEntry]
  · simp [extract_zip_entry, hne, hparse, find_member_nodup members m hnd hm]
  · intro c2 hc2
    cases hc2e : c2.isEmpty with
    | true => simp [get_zip_contents, hc2e]
    | false =>
      have : (c2.take 2 == [80, 75]) = false := by
        simpa using hc2
      simp [get_zip_contents, hc2e, this]
  · intro c2 hc2
    cases hc2e : c2.isEmpty with
    | true => simp [get_zip_contents, hc2e]
    | false =>
      by_cases hsig : (c2.take 2 == [80, 75]) = true
      · simp [get_zip_contents, hc2e, hsig, hc2]
      · simp [get_zip_contents, hc2e, hsig]

/-- Witness for archive transparency on the spec's three-member archive:
listing marks only "dir" as a directory and member extraction returns the
stored bytes of "dir/b.txt". -/
theorem archive_transparency_witness :
    extract_zip_entry
      (fun _ => some [⟨"a.txt", (1980, 1, 1, 0, 0, 0), 1, [97]⟩,
        ⟨"dir/", (1980, 1, 1, 0, 0, 0), 0, []⟩,
        ⟨"dir/b.txt", (1980, 1, 1, 0, 0, 0), 2, [98, 99]⟩])
      (some [80, 75, 3, 4]) "dir/b.txt" = some [98, 99]
    ∧ (mkZipEntry (fun _ => none) 5 2048
        ⟨"dir/", (1980, 1, 1, 0, 0, 0), 0, []⟩).is_directory = true
    ∧ (mkZipEntry (fun _ => none) 5 2048
        ⟨"dir/", (1980, 1, 1, 0, 0, 0), 0, []⟩).name = "dir" := by
  have h := archive_transparency (fun _ => none)
    (fun _ => some [⟨"a.txt", (1980, 1, 1, 0, 0, 0), 1, [97]⟩,
      ⟨"dir/", (1980, 1, 1, 0, 0, 0), 0, []⟩,
      ⟨"dir/b.txt", (1980, 1, 1, 0, 0, 0), 2, [98, 99]⟩])
    [80, 75, 3, 4]
    [⟨"a.txt", (1980, 1, 1, 0, 0, 0), 1, [97]⟩,
      ⟨"dir/", (1980, 1, 1, 0, 0, 0), 0, []⟩,
      ⟨"dir/b.txt", (1980, 1, 1, 0, 0, 0), 2, [98, 99]⟩]
    ⟨"dir/b.txt", (1980, 1, 1, 0, 0, 0), 2, [98, 99]⟩ 5 2048
    (by decide) rfl (by decide) (by decide)
  have h2 := archive_transparency (fun _ => none)
    (fun _ => some [⟨"a.txt", (1980, 1, 1, 0, 0, 0), 1, [97]⟩,
      ⟨"dir/", (1980, 1, 1, 0, 0, 0), 0, []⟩,
      ⟨"dir/b.txt", (1980, 1, 1, 0, 0, 0), 2, [98, 99]⟩])
    [80, 75, 3, 4]
    [⟨"a.txt", (1980, 1, 1, 0, 0, 0), 1, [97]⟩,
      ⟨"dir/", (1980, 1, 1, 0, 0, 0), 0, []⟩,
      ⟨"dir/b.txt", (1980, 1, 1, 0, 0, 0), 2, [98, 99]⟩]
    ⟨"dir/", (1980, 1, 1, 0, 0, 0), 0, []⟩ 5 2048
    (by decide) rfl (by decide) (by decide)
  exact ⟨h.2.2.2.1, h2.2.1.mpr (by decide), by
    rw [h2.2.2.1]
    decide⟩

/-- C9 counterexample: the claim says the temporary hive file is deleted on
every exit path including exceptions, but the `os.remove` cleanup sits after
the registry-parsing block inside the try, so when `Registry.Registry` or
`reg.open` raises the function returns the error string with the temporary
file still existing. -/
theorem get_windows_version_leak_counterexample :
    (get_windows_version ⟨true, "NTFS", some [1], false, fun _ => none⟩).tempFileRemains
      = true
    ∧ (get_windows_version ⟨true, "NTFS", some [1], false, fun _ => none⟩).result
      = some "Error in parsing OS version" := by
  exact ⟨rfl, rfl⟩

/-- C9 amended: the temporary hive file is deleted on the normal-completion
path (and no file is created when the filesystem, the NTFS check or the
hive extraction short-circuits), but on the exception path — registry
parsing raising after the file was written — the function returns the error
string with the temporary file left on disk. -/
theorem get_windows_version_cleanup (w : RegWorld) :
    (w.fsOk = false → get_windows_version w
      = { result := none, tempFileRemains := false })
    ∧ (w.fsType ≠ "NTFS" → (get_windows_version w).tempFileRemains = false)
    ∧ (w.hiveData = none → get_windows_version w
      = { result := none, tempFileRemains := false })
    ∧ (∀ d, w.fsOk = true → w.fsType = "NTFS" → w.hiveData = some d →
        w.regParseOk = true →
        (get_windows_version w).tempFileRemains = false
        ∧ (get_windows_version w).result.isSome = true)
    ∧ (∀ d, w.fsOk = true → w.fsType = "NTFS" → w.hiveData = some d →
        w.regParseOk = false →
        get_windows_version w
          = { result := some "Error in parsing OS version", tempFileRemains := true }) := by
  refine ⟨?_, ?_, ?_, ?_, ?_⟩
  · intro h; simp [get_windows_version, h]
  · intro h
    by_cases hfs : w.fsOk
    · have hb : (w.fsType != "NTFS") = true := by simpa using h
      simp [get_windows_version, hfs, hb]
    · simp [get_windows_version, hfs]
  · intro h
    by_cases hfs : w.fsOk
    · by_cases ht : w.fsType = "NTFS"
      · have hb : (w.fsType != "NTFS") = false := by simpa using ht
        simp [get_windows_version, hfs, hb, h]
      · have hb : (w.fsType != "NTFS") = true := by simpa using ht
        simp [get_windows_version, hfs, hb]
    · simp [get_windows_version, hfs]
  · intro d hfs ht hd hreg
    have hb : (w.fsType != "NTFS") = false := by simpa using ht
    constructor
    · simp [get_windows_version, hfs, hb, hd, hreg]
    · simp [get_windows_version, hfs, hb, hd, hreg]
  · intro d hfs ht hd hreg
    have hb : (w.fsType != "NTFS") = false := by simpa using ht
    simp [get_windows_version, hfs, hb, hd, hreg]

/-- Witness for the cleanup theorem: on a successful parse the temporary
file is gone and a version string is produced. -/
theorem get_windows_version_cleanup_witness :
    (get_windows_version ⟨true, "NTFS", some [1], true, fun _ => none⟩).tempFileRemains
      = false
    ∧ (get_windows_version
        ⟨true, "NTFS", some [1], true, fun _ => none⟩).result.isSome = true :=
  (get_windows_version_cleanup ⟨true, "NTFS", some [1], true, fun _ => none⟩).2.2.2.1
    [1] rfl rfl rfl rfl

end Toolkit
